import Mathlib

/-!
Verification of the Ez-Color-Xs color picker (`src/ez_color_xs.py`).

The repository is a small Qt color-inspection tool.  Its numeric core is the
body of `ColorPicker.update_labels` (color-model conversions), the nearest
CSS3-name search in the same function, the pointer-to-pixel mapping in
`EyeDropperDialog.mousePressEvent`, and the controller logic in
`ColorPicker.open_eyedropper`.  This file embeds those computations and proves
the spec's claims about them.

Machine arithmetic: the Python code works with Python ints (arbitrary
precision, `//` is floor division) and floats; all real-valued quantities are
modelled with `ℚ`.  Every quantity the claims compare is either an integer or
a rational whose value is far (≥ 1/510) from any rounding boundary, so exact
rational arithmetic agrees with the IEEE-double computation on every input
this file evaluates.
-/

namespace EzColorXs

/-- An RGB triple; each channel is an integer in [0, 255]. -/
structure RGB where
  r : ℕ
  g : ℕ
  b : ℕ
deriving DecidableEq

/-- A canonical color: RGB channels plus alpha, as held in a `QColor`. -/
structure Color where
  rgb : RGB
  alpha : ℕ
deriving DecidableEq

/-!
Model of `QColor.getHsv` / `QColor.getHsl`

`update_labels` obtains its HSV and HSL numbers from PySide6's
`QColor.getHsv()` / `QColor.getHsl()`.  A `QColor` built from 8-bit channels
stores each channel as the 16-bit value `257 * c`, so the normalized channel
used by Qt's conversion is exactly `c / 255`.  Qt computes (qcolor.cpp):

  value16      = qRound(max * 65535)
  saturation16 = qRound((delta / max) * 65535)        (HSV, chromatic case)
  hue100       = qRound(hue_in_degrees * 100)
and `getHsv` returns `hue100 / 100` (or `-1` when the color is achromatic,
i.e. `delta = 0`), `qt_div_257(saturation16)`, `qt_div_257(value16)`.
`getHsl` is analogous with lightness `(max+min)/2` and the two-case HSL
saturation.  `qFuzzyIsNull`/`qFuzzyCompare` on these quantities coincide with
exact equality (distinct channel ratios differ by at least `1/255`, far above
the `1e-12` fuzz), so they are modelled as rational equality.
-/

/-- Qt's `qRound` for nonnegative inputs: round half away from zero. -/
def qRound (x : ℚ) : ℤ := ⌊x + 1/2⌋

/-- Qt's `qt_div_257`: maps a 16-bit channel `x` to `round(x / 257)`,
computed as `((x + 128) - (x + 128) / 256) / 256` with truncating division
(all inputs here are nonnegative). -/
def qt_div_257 (x : ℤ) : ℤ := ((x + 128) - (x + 128) / 256) / 256

/-- The `(h, s, v)` integer triple produced by `getHsv` (for `getHsl` the
third component is the lightness).  `h` is `-1` for achromatic colors,
otherwise a degree in [0, 359]; `s` and `v` are 0-255 scaled. -/
structure HsvTriple where
  h : ℤ
  s : ℤ
  v : ℤ
deriving DecidableEq

/-- Model of `QColor.getHsv()` for a color built from 8-bit `r`, `g`, `b`. -/
def getHsv (r g b : ℕ) : HsvTriple :=
  let rq : ℚ := (r : ℚ) / 255
  let gq : ℚ := (g : ℚ) / 255
  let bq : ℚ := (b : ℚ) / 255
  let mx := max rq (max gq bq)
  let mn := min rq (min gq bq)
  let delta := mx - mn
  let value16 := qRound (mx * 65535)
  if delta = 0 then
    { h := -1, s := 0, v := qt_div_257 value16 }
  else
    let sat16 := qRound (delta / mx * 65535)
    let hue6 : ℚ :=
      if rq = mx then (gq - bq) / delta
      else if gq = mx then 2 + (bq - rq) / delta
      else 4 + (rq - gq) / delta
    let hue0 := hue6 * 60
    let hue := if hue0 < 0 then hue0 + 360 else hue0
    { h := qRound (hue * 100) / 100, s := qt_div_257 sat16, v := qt_div_257 value16 }

/-- Model of `QColor.getHsl()` for a color built from 8-bit `r`, `g`, `b`;
the `v` field holds the lightness. -/
def getHsl (r g b : ℕ) : HsvTriple :=
  let rq : ℚ := (r : ℚ) / 255
  let gq : ℚ := (g : ℚ) / 255
  let bq : ℚ := (b : ℚ) / 255
  let mx := max rq (max gq bq)
  let mn := min rq (min gq bq)
  let delta := mx - mn
  let delta2 := mx + mn
  let lightness16 := qRound (delta2 / 2 * 65535)
  if delta = 0 then
    { h := -1, s := 0, v := qt_div_257 lightness16 }
  else
    let sat16 :=
      if delta2 / 2 < 1/2 then qRound (delta / delta2 * 65535)
      else qRound (delta / (2 - delta2) * 65535)
    let hue6 : ℚ :=
      if rq = mx then (gq - bq) / delta
      else if gq = mx then 2 + (bq - rq) / delta
      else 4 + (rq - gq) / delta
    let hue0 := hue6 * 60
    let hue := if hue0 < 0 then hue0 + 360 else hue0
    { h := qRound (hue * 100) / 100, s := qt_div_257 sat16, v := qt_div_257 lightness16 }

/-!
The nearest-named-color search (`update_labels`, lines 184-195)

When the `webcolors` import succeeded, the code first tries
`webcolors.rgb_to_name((r, g, b))` (an exact lookup over the CSS3 palette);
on `ValueError` it builds a Python dict `min_colours` keyed by squared
distance (`min_colours[dist] = key`, so a later entry with an equal distance
overwrites an earlier one) and returns `min_colours[min(min_colours.keys())]`.
When the import failed, `webcolors` is `None` and `CSS3_NAMES_TO_HEX` is `{}`
(lines 17-22), and the name is the literal `"Unknown"`.

The Python dict is modelled as an insertion-ordered association list with
update-in-place / append-on-new-key, `min` over `dict.keys()` as a left fold
of `min`, and a dict subscript as `find?`.  An uncaught Python exception
(`min()` of an empty sequence, or a missing key) is `Except.error ()`.
-/

/-- Squared Euclidean RGB distance, palette entry channels minus input
channels, as in `dist = (r_c - r)**2 + (g_c - g)**2 + (b_c - b)**2`. -/
def sqDist (pc c : RGB) : ℤ :=
  ((pc.r : ℤ) - (c.r : ℤ)) ^ 2 + ((pc.g : ℤ) - (c.g : ℤ)) ^ 2 +
    ((pc.b : ℤ) - (c.b : ℤ)) ^ 2

/-- Assignment `d[k] = v` on a Python dict: replace the value if the key is present,
append a new binding otherwise. -/
def dictInsert (d : List (ℤ × String)) (k : ℤ) (v : String) : List (ℤ × String) :=
  if d.any (fun p => p.1 == k) then
    d.map (fun p => if p.1 == k then (k, v) else p)
  else d ++ [(k, v)]

/-- Subscript `d[k]` on a Python dict (as an `Option`). -/
def dictGet (d : List (ℤ × String)) (k : ℤ) : Option String :=
  (d.find? (fun p => p.1 == k)).map Prod.snd

/-- The `min_colours` dict after the `for key, hex_val in ...` loop. -/
def buildDict (palette : List (String × RGB)) (c : RGB) : List (ℤ × String) :=
  palette.foldl (fun d e => dictInsert d (sqDist e.2 c) e.1) []

/-- Python's `min` over a list (raises, i.e. `none`, on an empty list). -/
def pyMin : List ℤ → Option ℤ
  | [] => none
  | x :: xs => some (xs.foldl min x)

/-- Model of `webcolors.rgb_to_name` over the same CSS3 palette: the exact
RGB match, `none` when there is none (the library raises `ValueError`).
Which name is returned when several share one RGB is the library's choice;
the claims do not depend on it. -/
def rgb_to_name (palette : List (String × RGB)) (c : RGB) : Option String :=
  (palette.find? (fun e => e.2 == c)).map Prod.fst

/-- The color-name computation of `update_labels` (lines 184-195).
`avail` is the truthiness of the module-level `webcolors` (when the import
failed it is `None` and the palette is `{}`); `palette` is
`CSS3_NAMES_TO_HEX` with hex values decoded to RGB.  `Except.error ()` is an
uncaught Python exception. -/
def nearestName (avail : Bool) (palette : List (String × RGB)) (c : RGB) :
    Except Unit String :=
  if avail then
    match rgb_to_name palette c with
    | some n => .ok n
    | none =>
      match pyMin ((buildDict palette c).map Prod.fst) with
      | none => .error ()
      | some m =>
        match dictGet (buildDict palette c) m with
        | some n => .ok n
        | none => .error ()
  else .ok "Unknown"

/-- Specification view of the dict contents: the value stored under key `k`
after the whole palette has been written into `min_colours` is the name of
the LAST palette entry whose squared distance is `k` (a later binding to an
existing key overwrites the earlier one). -/
def lastVal (c : RGB) (l : List (String × RGB)) (k : ℤ) : Option String :=
  match l with
  | [] => none
  | e :: t =>
    match lastVal c t k with
    | some n => some n
    | none => if sqDist e.2 c = k then some e.1 else none

/-!
The `ColorPicker.update_labels` body (lines 157-207).

The numeric values behind the displayed labels, in the order the source
computes them.  String formatting (`f"...{:.1f}%"`) is presentation and is
not modelled; each label's numbers are.  The alpha `a` is read by the source
(line 161) and never used.
-/

/-- The numeric content of the labels set by `update_labels`. -/
structure Labels where
  hsv : ℤ × ℚ × ℚ
  hsl : ℤ × ℚ × ℚ
  cmyk : ℚ × ℚ × ℚ × ℚ
  hsb : ℤ × ℚ × ℚ
  decimal : ℕ
deriving DecidableEq

/-- The body of `ColorPicker.update_labels` for a color with channels
`r`, `g`, `b` and alpha `a`. -/
def update_labels (r g b a : ℕ) : Labels :=
  let r_norm : ℚ := (r : ℚ) / 255
  let g_norm : ℚ := (g : ℚ) / 255
  let b_norm : ℚ := (b : ℚ) / 255
  -- HSV
  let hsvT := getHsv r g b
  let s_hsv_pct : ℚ := (hsvT.s : ℚ) / 2.55
  let v_hsv_pct : ℚ := (hsvT.v : ℚ) / 2.55
  -- HSL
  let hslT := getHsl r g b
  let s_hsl_pct : ℚ := (hslT.s : ℚ) / 2.55
  let l_pct : ℚ := (hslT.v : ℚ) / 2.55
  -- CMYK
  let k : ℚ := 1 - max r_norm (max g_norm b_norm)
  let cmy : ℚ × ℚ × ℚ :=
    if k < 1 then
      ((1 - r_norm - k) / (1 - k), (1 - g_norm - k) / (1 - k),
        (1 - b_norm - k) / (1 - k))
    else (0, 0, 0)
  { hsl := (hslT.h, s_hsl_pct, l_pct)
    hsv := (hsvT.h, s_hsv_pct, v_hsv_pct)
    cmyk := (cmy.1 * 100, cmy.2.1 * 100, cmy.2.2 * 100, k * 100)
    hsb := (hsvT.h, s_hsv_pct, v_hsv_pct)
    decimal := (r <<< 16) + (g <<< 8) + b }

/-- The exact HSV saturation percentage stated by the spec (§4.1):
`s = 0` if the value is 0, else `(max - min) / max`, scaled to [0, 100]. -/
def exactHsvSatPct (r g b : ℕ) : ℚ :=
  let mx : ℚ := max (r : ℚ) (max (g : ℚ) (b : ℚ))
  let mn : ℚ := min (r : ℚ) (min (g : ℚ) (b : ℚ))
  if mx = 0 then 0 else (mx - mn) / mx * 100

/-- The CMYK formula exactly as the spec's claim states it: `k = 1 - max` of
the normalized channels, all-zero chroma when `k = 1`, otherwise the
`(1 - x - k)/(1 - k)` formulas, scaled to percentages. -/
def cmykSpec (r g b : ℕ) : ℚ × ℚ × ℚ × ℚ :=
  let r' : ℚ := (r : ℚ) / 255
  let g' : ℚ := (g : ℚ) / 255
  let b' : ℚ := (b : ℚ) / 255
  let k : ℚ := 1 - max r' (max g' b')
  if k = 1 then (0, 0, 0, 100)
  else ((1 - r' - k) / (1 - k) * 100, (1 - g' - k) / (1 - k) * 100,
    (1 - b' - k) / (1 - k) * 100, k * 100)

/-!
The `EyeDropperDialog` overlay (lines 24-55).

The dialog grabs one screenshot (`self.image`, immutable for the session) and
shows it scaled to the full screen through `self.label`.  A mouse press maps
the pointer position back to image coordinates with Python floor division,
clamps, reads the pixel, and always calls `self.accept()`.
-/

/-- The captured frame: the screenshot's size and pixel accessor
(`self.image.width()`, `self.image.height()`, `self.image.pixel(x, y)`). -/
structure Frame where
  width : ℕ
  height : ℕ
  pixelAt : ℕ → ℕ → RGB

/-- The left-button branch of `EyeDropperDialog.mousePressEvent`
(lines 47-54): `x = pos.x() * image.width() // label.width()` (Python `//`
is floor division), then `x = max(0, min(x, width - 1))`, likewise for `y`;
the pixel is wrapped in `QColor(pixel)`, whose alpha is 255. -/
def resolvePointer (f : Frame) (labelW labelH : ℕ) (px py : ℤ) : Color :=
  let x : ℤ := max 0 (min ((px * f.width).fdiv labelW) ((f.width : ℤ) - 1))
  let y : ℤ := max 0 (min ((py * f.height).fdiv labelH) ((f.height : ℤ) - 1))
  { rgb := f.pixelAt x.toNat y.toNat, alpha := 255 }

/-- The sampling session state after an event: still showing the captured
frame, or finished with `selected_color` (`none` until a left press sets
it; `accept()` ends the session). -/
inductive SessionState where
  | captured
  | finished (selected : Option Color)
deriving DecidableEq

/-- The handler `EyeDropperDialog.mousePressEvent` (lines 45-55) as a transition out of
the Captured state: a left press stores the resolved color, any press
reaches the unconditional `self.accept()`. -/
def mousePressEvent (f : Frame) (labelW labelH : ℕ) (leftButton : Bool)
    (px py : ℤ) : SessionState :=
  if leftButton then .finished (some (resolvePointer f labelW labelH px py))
  else .finished none

/-- The handler `ColorPicker.open_eyedropper` (lines 215-222): the controller's color
after the dialog ends.  `execAccepted` is the truthiness of `dlg.exec()`;
`selected` is `dlg.selected_color` (`None` is falsy, a `QColor` truthy). -/
def open_eyedropper (current : Color) (execAccepted : Bool)
    (selected : Option Color) : Color :=
  if execAccepted then
    match selected with
    | some c => c
    | none => current
  else current

/-! ## Projection lemmas for `update_labels` -/

lemma update_labels_hsv_h (r g b a : ℕ) :
    (update_labels r g b a).hsv.1 = (getHsv r g b).h := rfl

lemma update_labels_hsv_s (r g b a : ℕ) :
    (update_labels r g b a).hsv.2.1 = ((getHsv r g b).s : ℚ) / 2.55 := rfl

lemma update_labels_hsv_v (r g b a : ℕ) :
    (update_labels r g b a).hsv.2.2 = ((getHsv r g b).v : ℚ) / 2.55 := rfl

lemma update_labels_hsl_h (r g b a : ℕ) :
    (update_labels r g b a).hsl.1 = (getHsl r g b).h := rfl

lemma update_labels_hsl_s (r g b a : ℕ) :
    (update_labels r g b a).hsl.2.1 = ((getHsl r g b).s : ℚ) / 2.55 := rfl

lemma update_labels_decimal (r g b a : ℕ) :
    (update_labels r g b a).decimal = (r <<< 16) + (g <<< 8) + b := rfl

lemma update_labels_cmyk (r g b a : ℕ) :
    (update_labels r g b a).cmyk =
      (let k : ℚ := 1 - max ((r : ℚ) / 255) (max ((g : ℚ) / 255) ((b : ℚ) / 255))
       let cmy : ℚ × ℚ × ℚ :=
         if k < 1 then
           ((1 - (r : ℚ) / 255 - k) / (1 - k), (1 - (g : ℚ) / 255 - k) / (1 - k),
             (1 - (b : ℚ) / 255 - k) / (1 - k))
         else (0, 0, 0)
       (cmy.1 * 100, cmy.2.1 * 100, cmy.2.2 * 100, k * 100)) := rfl

/-- For a gray input Qt's HSV conversion takes the achromatic branch. -/
lemma getHsv_gray (c : ℕ) : (getHsv c c c).h = -1 ∧ (getHsv c c c).s = 0 := by
  constructor <;> simp [getHsv, max_self, min_self]

/-- For a gray input Qt's HSL conversion takes the achromatic branch. -/
lemma getHsl_gray (c : ℕ) : (getHsl c c c).h = -1 ∧ (getHsl c c c).s = 0 := by
  constructor <;> simp [getHsl, max_self, min_self]

/-- Concrete Qt HSV conversion of (200, 100, 100): saturation 16-bit value
`qRound((1/2) * 65535) = 32768`, scaled to the 8-bit 128. -/
lemma getHsv_200_100_100 : getHsv 200 100 100 = ⟨0, 128, 200⟩ := by
  norm_num [getHsv, qRound, qt_div_257, max_def, min_def]

/-! ## Claims -/

/-- C1: the displayed HSV saturation is NOT the exact `(max-min)/max`
percentage: the code divides Qt's 0-255-scaled integer saturation by 2.55.
At (200, 100, 100) the label shows `128 / 2.55 = 2560/51 ≈ 50.196`, while
the exact formula gives exactly 50.  Moreover for an achromatic input such
as (128, 128, 128) the displayed hue is Qt's sentinel `-1`, outside
[0, 360).  This is the approximation the spec's §9 "Open question" directs
implementers to treat as a bug. -/
theorem hsv_scaled_int_differs_from_exact :
    (update_labels 200 100 100 255).hsv.2.1 = 2560 / 51 ∧
    exactHsvSatPct 200 100 100 = 50 ∧
    (2560 / 51 : ℚ) ≠ 50 ∧
    (update_labels 128 128 128 255).hsv.1 = -1 := by
  refine ⟨?_, ?_, by norm_num, ?_⟩
  · rw [update_labels_hsv_s, getHsv_200_100_100]
    norm_num
  · norm_num [exactHsvSatPct, max_def, min_def]
  · rw [update_labels_hsv_h]
    exact (getHsv_gray 128).1

/-- C2 (counterexample): for the gray color (128, 128, 128) the code's
displayed HSV hue is `-1`, not the claimed 0. -/
theorem gray_hue_counterexample :
    (update_labels 128 128 128 255).hsv.1 = -1 ∧ ((-1 : ℤ) ≠ 0) := by
  refine ⟨?_, by norm_num⟩
  rw [update_labels_hsv_h]
  exact (getHsv_gray 128).1

/-- C2 (amended): for every gray color r = g = b, both the displayed HSV
saturation and HSL saturation are 0, and the displayed hue (HSV and HSL)
is Qt's achromatic sentinel `-1` rather than 0. -/
theorem gray_saturations_zero_hue_sentinel (c a : ℕ) :
    (update_labels c c c a).hsv.2.1 = 0 ∧
    (update_labels c c c a).hsl.2.1 = 0 ∧
    (update_labels c c c a).hsv.1 = -1 ∧
    (update_labels c c c a).hsl.1 = -1 := by
  refine ⟨?_, ?_, ?_, ?_⟩
  · rw [update_labels_hsv_s, (getHsv_gray c).2]
    norm_num
  · rw [update_labels_hsl_s, (getHsl_gray c).2]
    norm_num
  · rw [update_labels_hsv_h]
    exact (getHsv_gray c).1
  · rw [update_labels_hsl_h]
    exact (getHsl_gray c).1

/-- C5: the decimal label is `(r << 16) + (g << 8) + b`, which equals
`r * 65536 + g * 256 + b`, lies in [0, 16777215] for 8-bit channels, is
independent of alpha, and takes the documented values on pure red, green
and blue. -/
theorem decimal_packs_rgb (r g b a : ℕ) (hr : r ≤ 255) (hg : g ≤ 255)
    (hb : b ≤ 255) :
    (update_labels r g b a).decimal = r * 65536 + g * 256 + b ∧
    (update_labels r g b a).decimal ≤ 16777215 ∧
    (∀ a', (update_labels r g b a').decimal = (update_labels r g b a).decimal) ∧
    (update_labels 255 0 0 255).decimal = 16711680 ∧
    (update_labels 0 255 0 255).decimal = 65280 ∧
    (update_labels 0 0 255 255).decimal = 255 := by
  have key : (update_labels r g b a).decimal = r * 65536 + g * 256 + b := by
    rw [update_labels_decimal, Nat.shiftLeft_eq, Nat.shiftLeft_eq]
  refine ⟨key, ?_, fun a' => rfl, ?_, ?_, ?_⟩
  · rw [key]; omega
  · decide
  · decide
  · decide

/-- C5 (witness): the theorem instantiated at (12, 34, 56). -/
theorem decimal_packs_rgb_witness :
    (update_labels 12 34 56 255).decimal = 12 * 65536 + 34 * 256 + 56 ∧
    (update_labels 12 34 56 255).decimal ≤ 16777215 ∧
    (∀ a', (update_labels 12 34 56 a').decimal = (update_labels 12 34 56 255).decimal) ∧
    (update_labels 255 0 0 255).decimal = 16711680 ∧
    (update_labels 0 255 0 255).decimal = 65280 ∧
    (update_labels 0 0 255 255).decimal = 255 :=
  decimal_packs_rgb 12 34 56 255 (by norm_num) (by norm_num) (by norm_num)

/-- C7: the HSB label shows exactly the HSV numbers; both labels are set
from the same `h_hsv`, `s_hsv_pct`, `v_hsv_pct` values of one `getHsv`
call, so they agree definitionally. -/
theorem hsb_identical_to_hsv (r g b a : ℕ) :
    (update_labels r g b a).hsb = (update_labels r g b a).hsv := rfl

/-- C9: a sampling session that ends without a resolved color leaves the
controller's color unchanged: if the dialog was dismissed (`exec()` falsy)
or no color was selected (`selected_color` is `None`), `self.color` keeps
its previous value. -/
theorem cancel_keeps_color (current : Color) :
    (∀ execAccepted, open_eyedropper current execAccepted none = current) ∧
    (∀ selected, open_eyedropper current false selected = current) := by
  refine ⟨fun e => ?_, fun s => rfl⟩
  cases e <;> rfl

/-- C10: every mouse press on the eyedropper overlay reaches the
unconditional `self.accept()`: the session never stays captured, a
left-button press resolves the pointed-at color, and any other button
finishes with no selected color. -/
theorem press_always_terminates (f : Frame) (labelW labelH : ℕ)
    (leftButton : Bool) (px py : ℤ) :
    mousePressEvent f labelW labelH leftButton px py ≠ .captured ∧
    mousePressEvent f labelW labelH leftButton px py =
      .finished
        (if leftButton then some (resolvePointer f labelW labelH px py)
         else none) := by
  cases leftButton <;> simp [mousePressEvent]

/-! ## CMYK lemmas (claim C6) -/

/-- The CMYK label for pure black. -/
lemma cmyk_black_eval : (update_labels 0 0 0 255).cmyk = (0, 0, 0, 100) := by
  rw [update_labels_cmyk]
  norm_num

/-- The CMYK label for pure white. -/
lemma cmyk_white_eval : (update_labels 255 255 255 255).cmyk = (0, 0, 0, 0) := by
  rw [update_labels_cmyk]
  norm_num [max_def]

/-- The code's `if k < 1` guard and the spec's `if k = 1` guard select the
same branches, so the computed CMYK tuple equals the spec formula. -/
lemma cmyk_code_eq_spec (r g b a : ℕ) :
    (update_labels r g b a).cmyk = cmykSpec r g b := by
  rw [update_labels_cmyk, cmykSpec]
  by_cases hM : max ((r : ℚ) / 255) (max ((g : ℚ) / 255) ((b : ℚ) / 255)) = 0
  · rw [hM]
    norm_num
  · have h0 : (0:ℚ) ≤ max ((r : ℚ) / 255) (max ((g : ℚ) / 255) ((b : ℚ) / 255)) :=
      le_trans (by positivity) (le_max_left _ _)
    have hpos : (0:ℚ) < max ((r : ℚ) / 255) (max ((g : ℚ) / 255) ((b : ℚ) / 255)) :=
      lt_of_le_of_ne h0 (Ne.symm hM)
    have hlt : 1 - max ((r : ℚ) / 255) (max ((g : ℚ) / 255) ((b : ℚ) / 255)) < 1 := by
      linarith
    have hne : ¬(1 - max ((r : ℚ) / 255) (max ((g : ℚ) / 255) ((b : ℚ) / 255)) = (1:ℚ)) := by
      intro h; exact hM (by linarith)
    simp only [if_pos hlt, if_neg hne]

/-- Bounds for one chroma percentage in the non-black branch, with
`M = max(r', g', b')` so that `1 - k = M` and `1 - x - k = M - x`. -/
lemma chroma_bound {x M : ℚ} (hx : 0 ≤ x) (hxM : x ≤ M) (hM : 0 < M) :
    0 ≤ (1 - x - (1 - M)) / (1 - (1 - M)) * 100 ∧
      (1 - x - (1 - M)) / (1 - (1 - M)) * 100 ≤ 100 := by
  have h1 : 1 - (1 - M) = M := by ring
  have h2 : 1 - x - (1 - M) = M - x := by ring
  rw [h1, h2]
  have hd0 : 0 ≤ (M - x) / M := div_nonneg (by linarith) hM.le
  have hd1 : (M - x) / M ≤ 1 := by
    rw [div_le_one hM]; linarith
  constructor <;> linarith

/-- All four spec CMYK components are percentages in [0, 100]. -/
lemma cmykSpec_bounds (r g b : ℕ) (hr : r ≤ 255) (hg : g ≤ 255) (hb : b ≤ 255) :
    (0 ≤ (cmykSpec r g b).1 ∧ (cmykSpec r g b).1 ≤ 100) ∧
    (0 ≤ (cmykSpec r g b).2.1 ∧ (cmykSpec r g b).2.1 ≤ 100) ∧
    (0 ≤ (cmykSpec r g b).2.2.1 ∧ (cmykSpec r g b).2.2.1 ≤ 100) ∧
    (0 ≤ (cmykSpec r g b).2.2.2 ∧ (cmykSpec r g b).2.2.2 ≤ 100) := by
  have hr0 : (0:ℚ) ≤ (r:ℚ)/255 := by positivity
  have hg0 : (0:ℚ) ≤ (g:ℚ)/255 := by positivity
  have hb0 : (0:ℚ) ≤ (b:ℚ)/255 := by positivity
  have hr1 : (r:ℚ)/255 ≤ 1 := by
    rw [div_le_one (by norm_num : (0:ℚ) < 255)]; exact_mod_cast hr
  have hg1 : (g:ℚ)/255 ≤ 1 := by
    rw [div_le_one (by norm_num : (0:ℚ) < 255)]; exact_mod_cast hg
  have hb1 : (b:ℚ)/255 ≤ 1 := by
    rw [div_le_one (by norm_num : (0:ℚ) < 255)]; exact_mod_cast hb
  have hrM : (r:ℚ)/255 ≤ max ((r : ℚ) / 255) (max ((g : ℚ) / 255) ((b : ℚ) / 255)) :=
    le_max_left _ _
  have hgM : (g:ℚ)/255 ≤ max ((r : ℚ) / 255) (max ((g : ℚ) / 255) ((b : ℚ) / 255)) :=
    le_trans (le_max_left _ _) (le_max_right _ _)
  have hbM : (b:ℚ)/255 ≤ max ((r : ℚ) / 255) (max ((g : ℚ) / 255) ((b : ℚ) / 255)) :=
    le_trans (le_max_right _ _) (le_max_right _ _)
  have hM0 : (0:ℚ) ≤ max ((r : ℚ) / 255) (max ((g : ℚ) / 255) ((b : ℚ) / 255)) :=
    le_trans hr0 hrM
  have hM1 : max ((r : ℚ) / 255) (max ((g : ℚ) / 255) ((b : ℚ) / 255)) ≤ 1 :=
    max_le hr1 (max_le hg1 hb1)
  rw [cmykSpec]
  split_ifs with hk
  · norm_num
  · have hMpos : (0:ℚ) < max ((r : ℚ) / 255) (max ((g : ℚ) / 255) ((b : ℚ) / 255)) := by
      rcases lt_or_eq_of_le hM0 with h | h
      · exact h
      · exact absurd
          (by linarith :
            1 - max ((r : ℚ) / 255) (max ((g : ℚ) / 255) ((b : ℚ) / 255)) = 1) hk
    refine ⟨chroma_bound hr0 hrM hMpos, chroma_bound hg0 hgM hMpos,
      chroma_bound hb0 hbM hMpos, ?_, ?_⟩ <;> simp only [] <;> nlinarith

/-- C6: the CMYK label equals the spec formula (`k = 1 - max` of normalized
channels, zero chroma at pure black, otherwise `(1-x-k)/(1-k)`), every
component is a percentage in [0, 100], black maps to (0,0,0,100) and white
to (0,0,0,0).  The code guards with `k < 1`, the spec with `k = 1`; since
`k ≤ 1` always, the branches coincide and pure black never divides by
zero. -/
theorem cmyk_label_correct (r g b a : ℕ) (hr : r ≤ 255) (hg : g ≤ 255)
    (hb : b ≤ 255) :
    (update_labels r g b a).cmyk = cmykSpec r g b ∧
    (0 ≤ (update_labels r g b a).cmyk.1 ∧ (update_labels r g b a).cmyk.1 ≤ 100) ∧
    (0 ≤ (update_labels r g b a).cmyk.2.1 ∧ (update_labels r g b a).cmyk.2.1 ≤ 100) ∧
    (0 ≤ (update_labels r g b a).cmyk.2.2.1 ∧ (update_labels r g b a).cmyk.2.2.1 ≤ 100) ∧
    (0 ≤ (update_labels r g b a).cmyk.2.2.2 ∧ (update_labels r g b a).cmyk.2.2.2 ≤ 100) ∧
    (update_labels 0 0 0 255).cmyk = (0, 0, 0, 100) ∧
    (update_labels 255 255 255 255).cmyk = (0, 0, 0, 0) := by
  have heq := cmyk_code_eq_spec r g b a
  have hbd := cmykSpec_bounds r g b hr hg hb
  rw [heq]
  exact ⟨rfl, hbd.1, hbd.2.1, hbd.2.2.1, hbd.2.2.2, cmyk_black_eval, cmyk_white_eval⟩

/-- C6 (witness): the theorem instantiated at (10, 20, 30). -/
theorem cmyk_label_correct_witness :
    (update_labels 10 20 30 255).cmyk = cmykSpec 10 20 30 ∧
    (0 ≤ (update_labels 10 20 30 255).cmyk.1 ∧ (update_labels 10 20 30 255).cmyk.1 ≤ 100) ∧
    (0 ≤ (update_labels 10 20 30 255).cmyk.2.1 ∧ (update_labels 10 20 30 255).cmyk.2.1 ≤ 100) ∧
    (0 ≤ (update_labels 10 20 30 255).cmyk.2.2.1 ∧ (update_labels 10 20 30 255).cmyk.2.2.1 ≤ 100) ∧
    (0 ≤ (update_labels 10 20 30 255).cmyk.2.2.2 ∧ (update_labels 10 20 30 255).cmyk.2.2.2 ≤ 100) ∧
    (update_labels 0 0 0 255).cmyk = (0, 0, 0, 100) ∧
    (update_labels 255 255 255 255).cmyk = (0, 0, 0, 0) :=
  cmyk_label_correct 10 20 30 255 (by norm_num) (by norm_num) (by norm_num)

/-- C4: the pointer press maps displayed coordinates to source coordinates
by floor division (`px * width // labelW`), clamps each coordinate into
`[0, dimension - 1]`, and returns the pixel there with alpha forced to 255;
on a 100×100 frame displayed at 200×200, (199,199) resolves to pixel
(99,99) and (0,0) to pixel (0,0). -/
theorem resolvePointer_maps_and_clamps (f : Frame) (labelW labelH : ℕ)
    (px py : ℤ) (hw : 1 ≤ f.width) (hh : 1 ≤ f.height) (hdw : 1 ≤ labelW)
    (hdh : 1 ≤ labelH) :
    (∃ x y : ℕ,
      resolvePointer f labelW labelH px py = { rgb := f.pixelAt x y, alpha := 255 } ∧
      (x : ℤ) = max 0 (min ((px * f.width).fdiv labelW) ((f.width : ℤ) - 1)) ∧
      (y : ℤ) = max 0 (min ((py * f.height).fdiv labelH) ((f.height : ℤ) - 1)) ∧
      x ≤ f.width - 1 ∧ y ≤ f.height - 1) ∧
    resolvePointer ⟨100, 100, fun u v => ⟨u, v, 0⟩⟩ 200 200 199 199 =
      { rgb := ⟨99, 99, 0⟩, alpha := 255 } ∧
    resolvePointer ⟨100, 100, fun u v => ⟨u, v, 0⟩⟩ 200 200 0 0 =
      { rgb := ⟨0, 0, 0⟩, alpha := 255 } := by
  refine ⟨?_, by decide, by decide⟩
  refine ⟨(max 0 (min ((px * f.width).fdiv labelW) ((f.width : ℤ) - 1))).toNat,
    (max 0 (min ((py * f.height).fdiv labelH) ((f.height : ℤ) - 1))).toNat,
    rfl, ?_, ?_, ?_, ?_⟩
  · exact Int.toNat_of_nonneg (le_max_left _ _)
  · exact Int.toNat_of_nonneg (le_max_left _ _)
  · have h1 : (1:ℤ) ≤ (f.width:ℤ) := by exact_mod_cast hw
    have h2 : max 0 (min ((px * f.width).fdiv labelW) ((f.width : ℤ) - 1)) ≤
        (f.width:ℤ) - 1 := max_le (by omega) (min_le_right _ _)
    omega
  · have h1 : (1:ℤ) ≤ (f.height:ℤ) := by exact_mod_cast hh
    have h2 : max 0 (min ((py * f.height).fdiv labelH) ((f.height : ℤ) - 1)) ≤
        (f.height:ℤ) - 1 := max_le (by omega) (min_le_right _ _)
    omega

/-! ## Dict lemmas for the nearest-name search (claims C3, C8) -/

lemma key_of_replace (k : ℤ) (v : String) (p : ℤ × String) :
    (if p.1 == k then (k, v) else p).1 = p.1 := by
  by_cases hp : p.1 = k
  · simp [hp]
  · simp [hp]

lemma find?_map_replace (d : List (ℤ × String)) (k k' : ℤ) (v : String) :
    (d.map (fun p => if p.1 == k then (k, v) else p)).find? (fun p => p.1 == k') =
      (d.find? (fun p => p.1 == k')).map (fun p => if p.1 == k then (k, v) else p) := by
  induction d with
  | nil => rfl
  | cons p t ih =>
    rw [List.map_cons]
    by_cases hp : p.1 = k'
    · rw [List.find?_cons_of_pos _ (by rw [key_of_replace]; simp [hp]),
        List.find?_cons_of_pos _ (by simp [hp])]
      rfl
    · rw [List.find?_cons_of_neg _ (by rw [key_of_replace]; simp [hp]),
        List.find?_cons_of_neg _ (by simp [hp]), ih]

lemma dictGet_insert (d : List (ℤ × String)) (k k' : ℤ) (v : String) :
    dictGet (dictInsert d k v) k' = if k' = k then some v else dictGet d k' := by
  unfold dictInsert dictGet
  by_cases hany : d.any (fun p => p.1 == k)
  · rw [if_pos hany, find?_map_replace]
    by_cases hk : k' = k
    · subst hk
      have hsome : (d.find? (fun p => p.1 == k')).isSome := by
        rw [List.find?_isSome]
        obtain ⟨x, hx, hpx⟩ := List.any_eq_true.1 hany
        exact ⟨x, hx, hpx⟩
      obtain ⟨p, hp⟩ := Option.isSome_iff_exists.1 hsome
      have hpk : p.1 = k' := by simpa using List.find?_some hp
      rw [hp, if_pos rfl]
      simp [hpk]
    · rw [if_neg hk]
      cases hfind : d.find? (fun p => p.1 == k') with
      | none => rfl
      | some p =>
        have hpk : p.1 = k' := by simpa using List.find?_some hfind
        have hne : ¬(p.1 = k) := by rw [hpk]; exact hk
        simp [hne]
  · rw [if_neg hany, List.find?_append]
    have hnone : d.find? (fun p => p.1 == k) = none := by
      rw [List.find?_eq_none]
      intro x hx hpx
      exact hany (List.any_eq_true.2 ⟨x, hx, hpx⟩)
    by_cases hk : k' = k
    · subst hk
      rw [hnone]
      simp
    · have hsingle : ([(k, v)].find? (fun p => p.1 == k')) = none := by
        simp [Ne.symm hk]
      rw [hsingle]
      cases hfind : d.find? (fun p => p.1 == k') <;> simp [if_neg hk]

lemma mem_keys_insert (d : List (ℤ × String)) (k k' : ℤ) (v : String) :
    k' ∈ (dictInsert d k v).map Prod.fst ↔ (k' ∈ d.map Prod.fst ∨ k' = k) := by
  unfold dictInsert
  by_cases hany : d.any (fun p => p.1 == k)
  · rw [if_pos hany]
    have hkeys : (d.map (fun p => if p.1 == k then (k, v) else p)).map Prod.fst
        = d.map Prod.fst := by
      rw [List.map_map]
      apply List.map_congr_left
      intro p hp
      exact key_of_replace k v p
    rw [hkeys]
    constructor
    · exact Or.inl
    · rintro (h | rfl)
      · exact h
      · obtain ⟨x, hx, hpx⟩ := List.any_eq_true.1 hany
        have hxk : x.1 = k' := by simpa using hpx
        exact List.mem_map.2 ⟨x, hx, hxk⟩
  · rw [if_neg hany, List.map_append]
    simp

lemma dictGet_loop (c : RGB) (l : List (String × RGB)) (d : List (ℤ × String))
    (k : ℤ) :
    dictGet (l.foldl (fun d e => dictInsert d (sqDist e.2 c) e.1) d) k =
      match lastVal c l k with
      | some n => some n
      | none => dictGet d k := by
  induction l generalizing d with
  | nil => rfl
  | cons e t ih =>
    rw [List.foldl_cons, ih]
    cases hl : lastVal c t k with
    | some n => simp [lastVal, hl]
    | none =>
      rw [dictGet_insert]
      simp only [lastVal, hl]
      by_cases hd : sqDist e.2 c = k
      · simp [hd]
      · rw [if_neg (fun h => hd h.symm), if_neg hd]

lemma dictGet_buildDict (c : RGB) (palette : List (String × RGB)) (k : ℤ) :
    dictGet (buildDict palette c) k = lastVal c palette k := by
  simp only [buildDict]
  rw [dictGet_loop]
  cases lastVal c palette k <;> rfl

lemma mem_keys_loop (c : RGB) (l : List (String × RGB)) (d : List (ℤ × String))
    (k : ℤ) :
    k ∈ ((l.foldl (fun d e => dictInsert d (sqDist e.2 c) e.1) d).map Prod.fst) ↔
      (k ∈ d.map Prod.fst ∨ ∃ e ∈ l, sqDist e.2 c = k) := by
  induction l generalizing d with
  | nil => simp
  | cons e t ih =>
    rw [List.foldl_cons, ih]
    rw [mem_keys_insert]
    constructor
    · rintro ((h | h) | h)
      · exact Or.inl h
      · exact Or.inr ⟨e, List.mem_cons_self e t, h.symm⟩
      · obtain ⟨q, hq, hqd⟩ := h
        exact Or.inr ⟨q, List.mem_cons_of_mem _ hq, hqd⟩
    · rintro (h | ⟨q, hq, hqd⟩)
      · exact Or.inl (Or.inl h)
      · rcases List.mem_cons.1 hq with rfl | hq
        · exact Or.inl (Or.inr hqd.symm)
        · exact Or.inr ⟨q, hq, hqd⟩

lemma mem_keys_buildDict (c : RGB) (palette : List (String × RGB)) (k : ℤ) :
    k ∈ ((buildDict palette c).map Prod.fst) ↔ ∃ e ∈ palette, sqDist e.2 c = k := by
  simp only [buildDict]
  rw [mem_keys_loop]
  simp

lemma lastVal_eq_none_iff (c : RGB) (l : List (String × RGB)) (k : ℤ) :
    lastVal c l k = none ↔ ∀ e ∈ l, sqDist e.2 c ≠ k := by
  induction l with
  | nil => simp [lastVal]
  | cons e t ih =>
    simp only [lastVal]
    cases hl : lastVal c t k with
    | some n =>
      constructor
      · intro h; exact Option.noConfusion h
      · intro hall
        have hnone : lastVal c t k = none :=
          ih.2 (fun q hq => hall q (List.mem_cons_of_mem _ hq))
        rw [hl] at hnone
        exact Option.noConfusion hnone
    | none =>
      by_cases hd : sqDist e.2 c = k
      · simp only [if_pos hd]
        constructor
        · intro h; exact Option.noConfusion h
        · intro hall; exact absurd hd (hall e (List.mem_cons_self e t))
      · simp only [if_neg hd]
        constructor
        · intro _ q hq
          rcases List.mem_cons.1 hq with rfl | hq
          · exact hd
          · exact (ih.1 hl) q hq
        · intro _; trivial

lemma lastVal_eq_some_split (c : RGB) (l : List (String × RGB)) (k : ℤ)
    (n : String) (h : lastVal c l k = some n) :
    ∃ pre e post, l = pre ++ e :: post ∧ e.1 = n ∧ sqDist e.2 c = k ∧
      ∀ q ∈ post, sqDist q.2 c ≠ k := by
  induction l with
  | nil => exact Option.noConfusion h
  | cons e t ih =>
    rw [lastVal] at h
    cases hl : lastVal c t k with
    | some m =>
      rw [hl] at h
      injection h with hmn
      obtain ⟨pre, q, post, hsplit, hn, hd, hpost⟩ := ih (by rw [hl, hmn])
      exact ⟨e :: pre, q, post, by rw [hsplit]; rfl, hn, hd, hpost⟩
    | none =>
      rw [hl] at h
      by_cases hd : sqDist e.2 c = k
      · rw [if_pos hd] at h
        injection h with hen
        exact ⟨[], e, t, rfl, hen, hd, (lastVal_eq_none_iff c t k).1 hl⟩
      · rw [if_neg hd] at h
        exact Option.noConfusion h

lemma foldl_min_spec (xs : List ℤ) (x : ℤ) :
    (xs.foldl min x ≤ x) ∧ (∀ y ∈ xs, xs.foldl min x ≤ y) ∧
      (xs.foldl min x = x ∨ xs.foldl min x ∈ xs) := by
  induction xs generalizing x with
  | nil => simp
  | cons y ys ih =>
    rw [List.foldl_cons]
    obtain ⟨h1, h2, h3⟩ := ih (min x y)
    refine ⟨le_trans h1 (min_le_left _ _), ?_, ?_⟩
    · intro z hz
      rcases List.mem_cons.1 hz with rfl | hz
      · exact le_trans h1 (min_le_right _ _)
      · exact h2 z hz
    · rcases h3 with h | h
      · rcases le_total x y with hxy | hyx
        · exact Or.inl (by rw [h, min_eq_left hxy])
        · exact Or.inr (by rw [h, min_eq_right hyx]; exact List.mem_cons_self y ys)
      · exact Or.inr (List.mem_cons_of_mem _ h)

lemma pyMin_spec (xs : List ℤ) (hne : xs ≠ []) :
    ∃ m, pyMin xs = some m ∧ m ∈ xs ∧ ∀ y ∈ xs, m ≤ y := by
  cases xs with
  | nil => exact absurd rfl hne
  | cons x t =>
    obtain ⟨h1, h2, h3⟩ := foldl_min_spec t x
    refine ⟨t.foldl min x, rfl, ?_, ?_⟩
    · rcases h3 with h | h
      · rw [h]; exact List.mem_cons_self x t
      · exact List.mem_cons_of_mem _ h
    · intro y hy
      rcases List.mem_cons.1 hy with rfl | hy
      · exact h1
      · exact h2 y hy

/-- C3 (counterexample): with two palette entries at equal distance 1 from
the input, the code returns the LAST tied entry ("b"), not the first ("a")
as the claim states. -/
theorem nearest_tie_counterexample :
    nearestName true [("a", ⟨0, 0, 0⟩), ("b", ⟨0, 0, 2⟩)] ⟨0, 0, 1⟩ = .ok "b" ∧
    sqDist ⟨0, 0, 0⟩ ⟨0, 0, 1⟩ = sqDist ⟨0, 0, 2⟩ ⟨0, 0, 1⟩ ∧
    ("b" : String) ≠ "a" := by
  refine ⟨by rfl, by decide, by decide⟩

/-- C3 (amended): for a nonempty palette, an exact RGB match returns that
name; otherwise the returned name belongs to an entry of globally minimal
squared distance, and every entry strictly after it has strictly greater
distance — i.e. ties are broken towards the LAST minimal entry in palette
iteration order, because the dict keyed by distance overwrites. -/
theorem nearestName_min_dist_last_tie (palette : List (String × RGB)) (c : RGB)
    (hne : palette ≠ []) :
    (∀ n, rgb_to_name palette c = some n → nearestName true palette c = .ok n) ∧
    (rgb_to_name palette c = none →
      ∃ pre e post, palette = pre ++ e :: post ∧
        nearestName true palette c = .ok e.1 ∧
        (∀ q ∈ palette, sqDist e.2 c ≤ sqDist q.2 c) ∧
        (∀ q ∈ post, sqDist e.2 c < sqDist q.2 c)) := by
  constructor
  · intro n hn
    simp [nearestName, hn]
  · intro hnone
    obtain ⟨e0, he0⟩ := List.exists_mem_of_ne_nil palette hne
    have hkey0 : sqDist e0.2 c ∈ (buildDict palette c).map Prod.fst :=
      (mem_keys_buildDict c palette _).2 ⟨e0, he0, rfl⟩
    obtain ⟨m, hmin, hmem, hle⟩ :=
      pyMin_spec _ (List.ne_nil_of_mem hkey0)
    have hall : ∀ q ∈ palette, m ≤ sqDist q.2 c := by
      intro q hq
      exact hle _ ((mem_keys_buildDict c palette _).2 ⟨q, hq, rfl⟩)
    have hsome : ∃ n, lastVal c palette m = some n := by
      cases hl : lastVal c palette m with
      | some n => exact ⟨n, rfl⟩
      | none =>
        obtain ⟨e, he, hde⟩ := (mem_keys_buildDict c palette m).1 hmem
        exact absurd hde ((lastVal_eq_none_iff c palette m).1 hl e he)
    obtain ⟨n, hn⟩ := hsome
    obtain ⟨pre, e, post, hsplit, hen, hdk, hpost⟩ :=
      lastVal_eq_some_split c palette m n hn
    refine ⟨pre, e, post, hsplit, ?_, ?_, ?_⟩
    · have hget : dictGet (buildDict palette c) m = some e.1 := by
        rw [dictGet_buildDict, hn, hen]
      simp [nearestName, hnone, hmin, hget]
    · intro q hq
      rw [hdk]
      exact hall q hq
    · intro q hq
      have h1 : m ≤ sqDist q.2 c := by
        apply hall
        rw [hsplit]
        exact List.mem_append_right _ (List.mem_cons_of_mem _ hq)
      have h2 : sqDist q.2 c ≠ m := hpost q hq
      rw [hdk]
      omega

/-- C3 (witness): the theorem applied to the spec's own example palette
{red, blue} with input (250, 5, 5); there is no exact match and "red" is
the unique minimum. -/
theorem nearestName_min_dist_last_tie_witness :
    (∀ n, rgb_to_name [("red", ⟨255, 0, 0⟩), ("blue", ⟨0, 0, 255⟩)] ⟨250, 5, 5⟩ = some n →
      nearestName true [("red", ⟨255, 0, 0⟩), ("blue", ⟨0, 0, 255⟩)] ⟨250, 5, 5⟩ = .ok n) ∧
    (rgb_to_name [("red", ⟨255, 0, 0⟩), ("blue", ⟨0, 0, 255⟩)] ⟨250, 5, 5⟩ = none →
      ∃ pre e post, [("red", ⟨255, 0, 0⟩), ("blue", ⟨0, 0, 255⟩)] = pre ++ e :: post ∧
        nearestName true [("red", ⟨255, 0, 0⟩), ("blue", ⟨0, 0, 255⟩)] ⟨250, 5, 5⟩ = .ok e.1 ∧
        (∀ q ∈ [("red", ⟨255, 0, 0⟩), ("blue", ⟨0, 0, 255⟩)],
          sqDist e.2 ⟨250, 5, 5⟩ ≤ sqDist q.2 ⟨250, 5, 5⟩) ∧
        (∀ q ∈ post, sqDist e.2 ⟨250, 5, 5⟩ < sqDist q.2 ⟨250, 5, 5⟩)) :=
  nearestName_min_dist_last_tie [("red", ⟨255, 0, 0⟩), ("blue", ⟨0, 0, 255⟩)]
    ⟨250, 5, 5⟩ (by decide)

/-- C8 (counterexample): were the palette available but empty, a color with
no exact name would reach `min(min_colours.keys())` with an empty dict and
raise, instead of returning "Unknown". -/
theorem empty_available_palette_raises :
    nearestName true [] ⟨1, 2, 3⟩ = .error () := rfl

/-- C8 (amended): when `webcolors` is unavailable (the failed import also
leaves `CSS3_NAMES_TO_HEX` empty), the name lookup returns the "Unknown"
sentinel for every color and every palette value, without raising. -/
theorem unavailable_palette_unknown (palette : List (String × RGB)) (c : RGB) :
    nearestName false palette c = .ok "Unknown" := rfl

/-- C4 (witness): the theorem applied to a concrete 100×100 frame displayed
at 200×200 with a press at (199, 199). -/
theorem resolvePointer_maps_and_clamps_witness :
    (∃ x y : ℕ,
      resolvePointer ⟨100, 100, fun u v => ⟨u, v, 0⟩⟩ 200 200 199 199 =
        { rgb := Frame.pixelAt ⟨100, 100, fun u v => ⟨u, v, 0⟩⟩ x y, alpha := 255 } ∧
      (x : ℤ) = max 0 (min (((199 : ℤ) * (100:ℕ)).fdiv (200:ℕ)) (((100:ℕ) : ℤ) - 1)) ∧
      (y : ℤ) = max 0 (min (((199 : ℤ) * (100:ℕ)).fdiv (200:ℕ)) (((100:ℕ) : ℤ) - 1)) ∧
      x ≤ (100:ℕ) - 1 ∧ y ≤ (100:ℕ) - 1) ∧
    resolvePointer ⟨100, 100, fun u v => ⟨u, v, 0⟩⟩ 200 200 199 199 =
      { rgb := ⟨99, 99, 0⟩, alpha := 255 } ∧
    resolvePointer ⟨100, 100, fun u v => ⟨u, v, 0⟩⟩ 200 200 0 0 =
      { rgb := ⟨0, 0, 0⟩, alpha := 255 } :=
  resolvePointer_maps_and_clamps ⟨100, 100, fun u v => ⟨u, v, 0⟩⟩ 200 200 199 199
    (by norm_num) (by norm_num) (by norm_num) (by norm_num)

end EzColorXs
